import Mathlib

/-!
Shallow embedding of the Mancala board engine (`src/Mancala.py`).

The board is Python's list of 14 integers, modelled as `List Int`.
Reads `board[i]` are modelled with `getS` (indices used by the engine are
always in range for a 14-entry board, so the default value is never hit
there).  `make_move`, `collect_remaining_stones`, `is_game_over`,
`init_board` and `get_winner` are transliterated from the source; the
`while stones > 0` sowing loop becomes the structurally recursive `sow`
(one step per deposited stone, with the opponent-store skip folded into
`nextIndex`), and `sowFuel` is the same loop rendered literally with a
fuel bound, one fuel unit per loop iteration, used to state termination.
-/

namespace Mancala

/-- Read `board[i]` (Python list indexing; engine indices are always in range). -/
def getS (l : List Int) (i : Nat) : Int := l.getD i 0

/-- `init_board()`: `[4]*14` with positions 6 and 13 zeroed. -/
def init_board : List Int := ((List.replicate 14 (4 : Int)).set 6 0).set 13 0

/-- `sum(board[0:6])` on a 14-entry board. -/
def sumP1 (l : List Int) : Int :=
  getS l 0 + getS l 1 + getS l 2 + getS l 3 + getS l 4 + getS l 5

/-- `sum(board[7:13])` on a 14-entry board. -/
def sumP2 (l : List Int) : Int :=
  getS l 7 + getS l 8 + getS l 9 + getS l 10 + getS l 11 + getS l 12

/-- `is_game_over(board)`. -/
def is_game_over (l : List Int) : Bool := decide (sumP1 l = 0 ∨ sumP2 l = 0)

/-- The player-1 rejection test of `make_move`: `pit < 0 or pit > 5 or board[pit] == 0`. -/
abbrev invalidFor1 (board : List Int) (pit : Int) : Prop :=
  pit < 0 ∨ pit > 5 ∨ getS board pit.toNat = 0

/-- The player-2 rejection test of `make_move`: `pit < 7 or pit > 12 or board[pit] == 0`. -/
abbrev invalidFor2 (board : List Int) (pit : Int) : Prop :=
  pit < 7 ∨ pit > 12 ∨ getS board pit.toNat = 0

/-- One advance of the sowing index: `index = (index + 1) % 14`, skipping the
opponent's store (`player == 1 and index == 13`, `player == 2 and index == 6`)
without consuming a stone.  The skipped position is never itself followed by a
skipped position, so a single extra advance suffices. -/
def nextIndex (player : Int) (index : Nat) : Nat :=
  let i := (index + 1) % 14
  if (player = 1 ∧ i = 13) ∨ (player = 2 ∧ i = 6) then (i + 1) % 14 else i

/-- The sowing loop of `make_move`, one step per deposited stone:
`board[index] += 1; stones -= 1` at `nextIndex`. -/
def sow (player : Int) : Nat → Nat → List Int → List Int × Nat
  | 0, index, b => (b, index)
  | s + 1, index, b =>
    let i := nextIndex player index
    sow player s i (b.set i (getS b i + 1))

/-- `stones = board[pit]; board[pit] = 0; index = pit;` then the sowing loop.
Returns the sown board and the landing index.  (A non-positive `stones`
makes the Python loop run zero times, matching `Int.toNat`.) -/
def sownPair (board : List Int) (pit player : Int) : List Int × Nat :=
  sow player (getS board pit.toNat).toNat pit.toNat (board.set pit.toNat 0)

/-- The capture rule of `make_move` applied to the sown board `b1` and the
landing index: on the acting player's own pit holding exactly 1 stone, with a
non-empty opposite pit `12 - index`, move `board[opposite] + 1` into the
player's store and zero both pits. -/
def captureStep (b1 : List Int) (index : Nat) (player : Int) : List Int :=
  if player = 1 ∧ index < 6 ∧ getS b1 index = 1 then
    if getS b1 (12 - index) > 0 then
      ((b1.set 6 (getS b1 6 + (getS b1 (12 - index) + 1))).set index 0).set (12 - index) 0
    else b1
  else if player = 2 ∧ 7 ≤ index ∧ index ≤ 12 ∧ getS b1 index = 1 then
    if getS b1 (12 - index) > 0 then
      ((b1.set 13 (getS b1 13 + (getS b1 (12 - index) + 1))).set index 0).set (12 - index) 0
    else b1
  else b1

/-- The successful branch of `make_move`: sow, compute the extra-turn flag
(`player == 1 and index == 6` or `player == 2 and index == 13`), apply the
capture rule, return `(True, board, extra_turn)`. -/
def moveBody (board : List Int) (pit player : Int) : Bool × List Int × Bool :=
  let s := sownPair board pit player
  (true, captureStep s.1 s.2 player,
    decide ((player = 1 ∧ s.2 = 6) ∨ (player = 2 ∧ s.2 = 13)))

/-- `make_move(board, pit, player)`.  Any `player ≠ 1` takes the `else`
(player 2) validation branch, exactly as in the source.  Invalid moves return
`(False, board, False)`; the function is total, so invalidity is never a
fault. -/
def make_move (board : List Int) (pit player : Int) : Bool × List Int × Bool :=
  if player = 1 then
    if invalidFor1 board pit then (false, board, false) else moveBody board pit player
  else
    if invalidFor2 board pit then (false, board, false) else moveBody board pit player

/-- `collect_remaining_stones(board)`: fold the pit sums into the stores, then
zero pits 0–5 and 7–12. -/
def collect_remaining_stones (board : List Int) : List Int :=
  let b1 := board.set 6 (getS board 6 + sumP1 board)
  let b2 := b1.set 13 (getS b1 13 + sumP2 b1)
  let b3 := (((((b2.set 0 0).set 1 0).set 2 0).set 3 0).set 4 0).set 5 0
  (((((b3.set 7 0).set 8 0).set 9 0).set 10 0).set 11 0).set 12 0

/-- `get_winner(board)`: 1, 2, or 0 for a tie. -/
def get_winner (board : List Int) : Int :=
  if getS board 6 > getS board 13 then 1
  else if getS board 13 > getS board 6 then 2
  else 0

/-- The `while stones > 0` loop of `make_move` rendered literally, spending one
unit of fuel per loop iteration (a skip iteration consumes fuel but no stone);
`none` means the fuel ran out before the loop finished. -/
def sowFuel (player : Int) : Nat → Int → Nat → List Int → Option (List Int × Nat)
  | 0, stones, index, b => if stones ≤ 0 then some (b, index) else none
  | f + 1, stones, index, b =>
    if stones ≤ 0 then some (b, index)
    else
      let i := (index + 1) % 14
      if (player = 1 ∧ i = 13) ∨ (player = 2 ∧ i = 6) then sowFuel player f stones i b
      else sowFuel player f (stones - 1) i (b.set i (getS b i + 1))

/-! ### Basic list-access lemmas -/

theorem getS_set_self {l : List Int} {i : Nat} (a : Int) (h : i < l.length) :
    getS (l.set i a) i = a := by
  simp [getS, List.getElem?_set_self h]

theorem getS_set_ne {l : List Int} {i j : Nat} (a : Int) (h : i ≠ j) :
    getS (l.set i a) j = getS l j := by
  simp [getS, List.getElem?_set_ne h]

theorem getS_oob {l : List Int} {i : Nat} (h : l.length ≤ i) : getS l i = 0 := by
  simp [getS, List.getElem?_eq_none h]

theorem sum_set_getS {l : List Int} {i : Nat} (a : Int) (h : i < l.length) :
    (l.set i a).sum = l.sum - getS l i + a := by
  rw [List.sum_set' l i a, dif_pos h]
  simp [getS, List.getElem?_eq_getElem h]
  ring

/-! ### Sowing lemmas -/

theorem nextIndex_lt (player : Int) (index : Nat) : nextIndex player index < 14 := by
  simp only [nextIndex]
  split <;> omega

theorem nextIndex_ne_13 (index : Nat) : nextIndex 1 index ≠ 13 := by
  simp only [nextIndex]
  split
  case isTrue h =>
    rcases h with ⟨-, h13⟩ | ⟨h2, -⟩
    · omega
    · exact absurd h2 (by decide)
  case isFalse h =>
    intro hc
    exact h (Or.inl ⟨trivial, hc⟩)

theorem nextIndex_ne_6 (index : Nat) : nextIndex 2 index ≠ 6 := by
  simp only [nextIndex]
  split
  case isTrue h =>
    rcases h with ⟨h1, -⟩ | ⟨-, h6⟩
    · exact absurd h1 (by decide)
    · omega
  case isFalse h =>
    intro hc
    exact h (Or.inr ⟨trivial, hc⟩)

theorem sow_length (player : Int) (s : Nat) :
    ∀ (index : Nat) (b : List Int), (sow player s index b).1.length = b.length := by
  induction s with
  | zero => intro index b; rfl
  | succ n ih =>
    intro index b
    rw [sow, ih]
    exact List.length_set ..

theorem sow_sum (player : Int) (s : Nat) :
    ∀ (index : Nat) (b : List Int), b.length = 14 →
      (sow player s index b).1.sum = b.sum + (s : Int) := by
  induction s with
  | zero => intro index b _; simp [sow]
  | succ n ih =>
    intro index b hb
    rw [sow]
    rw [ih (nextIndex player index) _ (by rw [List.length_set]; exact hb)]
    rw [sum_set_getS _ (by rw [hb]; exact nextIndex_lt ..)]
    push_cast
    ring

theorem sow_getS_13 (s : Nat) :
    ∀ (index : Nat) (b : List Int), getS (sow 1 s index b).1 13 = getS b 13 := by
  induction s with
  | zero => intro index b; rfl
  | succ n ih =>
    intro index b
    rw [sow, ih]
    exact getS_set_ne _ (nextIndex_ne_13 index)

theorem sow_getS_6 (s : Nat) :
    ∀ (index : Nat) (b : List Int), getS (sow 2 s index b).1 6 = getS b 6 := by
  induction s with
  | zero => intro index b; rfl
  | succ n ih =>
    intro index b
    rw [sow, ih]
    exact getS_set_ne _ (nextIndex_ne_6 index)

theorem getS_set_nonneg {l : List Int} {i : Nat} {a : Int}
    (hl : ∀ j, 0 ≤ getS l j) (ha : 0 ≤ a) : ∀ j, 0 ≤ getS (l.set i a) j := by
  intro j
  by_cases hi : i < l.length
  · by_cases hij : i = j
    · subst hij; rw [getS_set_self _ hi]; exact ha
    · rw [getS_set_ne _ hij]; exact hl j
  · rw [List.set_eq_of_length_le (Nat.le_of_not_lt hi)]
    exact hl j

theorem sow_nonneg (player : Int) (s : Nat) :
    ∀ (index : Nat) (b : List Int), (∀ j, 0 ≤ getS b j) →
      ∀ j, 0 ≤ getS (sow player s index b).1 j := by
  induction s with
  | zero => intro index b hb; exact hb
  | succ n ih =>
    intro index b hb
    rw [sow]
    exact ih _ _ (getS_set_nonneg hb (by have := hb (nextIndex player index); omega))

/-! ### Branch lemmas for `make_move` -/

theorem moveBody_fst (board : List Int) (pit player : Int) :
    (moveBody board pit player).1 = true := rfl

theorem moveBody_board (board : List Int) (pit player : Int) :
    (moveBody board pit player).2.1 =
      captureStep (sownPair board pit player).1 (sownPair board pit player).2 player := rfl

theorem moveBody_extra (board : List Int) (pit player : Int) :
    (moveBody board pit player).2.2 =
      decide ((player = 1 ∧ (sownPair board pit player).2 = 6) ∨
        (player = 2 ∧ (sownPair board pit player).2 = 13)) := rfl

theorem make_move_invalid1 (board : List Int) (pit : Int) (h : invalidFor1 board pit) :
    make_move board pit 1 = (false, board, false) := by
  unfold make_move
  rw [if_pos rfl, if_pos h]

theorem make_move_valid1 (board : List Int) (pit : Int) (h : ¬ invalidFor1 board pit) :
    make_move board pit 1 = moveBody board pit 1 := by
  unfold make_move
  rw [if_pos rfl, if_neg h]

theorem make_move_invalid2 (board : List Int) (pit player : Int) (hp : ¬ player = 1)
    (h : invalidFor2 board pit) : make_move board pit player = (false, board, false) := by
  unfold make_move
  rw [if_neg hp, if_pos h]

theorem make_move_valid2 (board : List Int) (pit player : Int) (hp : ¬ player = 1)
    (h : ¬ invalidFor2 board pit) : make_move board pit player = moveBody board pit player := by
  unfold make_move
  rw [if_neg hp, if_neg h]

theorem valid_of_flag {board : List Int} {pit player : Int}
    (hv : (make_move board pit player).1 = true) :
    (player = 1 ∧ ¬ invalidFor1 board pit) ∨ (player ≠ 1 ∧ ¬ invalidFor2 board pit) := by
  by_cases hp : player = 1
  · refine Or.inl ⟨hp, fun h => ?_⟩
    rw [hp, make_move_invalid1 _ _ h] at hv
    exact Bool.noConfusion hv
  · refine Or.inr ⟨hp, fun h => ?_⟩
    rw [make_move_invalid2 _ _ _ hp h] at hv
    exact Bool.noConfusion hv

theorem not_invalid1 {board : List Int} {pit : Int} (h : ¬ invalidFor1 board pit) :
    0 ≤ pit ∧ pit ≤ 5 ∧ getS board pit.toNat ≠ 0 := by
  simp only [invalidFor1, not_or, not_lt] at h
  exact ⟨h.1, by omega, h.2.2⟩

theorem not_invalid2 {board : List Int} {pit : Int} (h : ¬ invalidFor2 board pit) :
    7 ≤ pit ∧ pit ≤ 12 ∧ getS board pit.toNat ≠ 0 := by
  simp only [invalidFor2, not_or, not_lt] at h
  exact ⟨h.1, by omega, h.2.2⟩

/-! ### Fixed-size boards -/

theorem destruct14 (l : List Int) (h : l.length = 14) :
    ∃ a0 a1 a2 a3 a4 a5 a6 a7 a8 a9 a10 a11 a12 a13 : Int,
      l = [a0, a1, a2, a3, a4, a5, a6, a7, a8, a9, a10, a11, a12, a13] := by
  obtain ⟨a0, l, rfl⟩ := List.exists_of_length_succ l (show l.length = 13 + 1 by omega)
  simp only [List.length_cons] at h
  obtain ⟨a1, l, rfl⟩ := List.exists_of_length_succ l (show l.length = 12 + 1 by omega)
  simp only [List.length_cons] at h
  obtain ⟨a2, l, rfl⟩ := List.exists_of_length_succ l (show l.length = 11 + 1 by omega)
  simp only [List.length_cons] at h
  obtain ⟨a3, l, rfl⟩ := List.exists_of_length_succ l (show l.length = 10 + 1 by omega)
  simp only [List.length_cons] at h
  obtain ⟨a4, l, rfl⟩ := List.exists_of_length_succ l (show l.length = 9 + 1 by omega)
  simp only [List.length_cons] at h
  obtain ⟨a5, l, rfl⟩ := List.exists_of_length_succ l (show l.length = 8 + 1 by omega)
  simp only [List.length_cons] at h
  obtain ⟨a6, l, rfl⟩ := List.exists_of_length_succ l (show l.length = 7 + 1 by omega)
  simp only [List.length_cons] at h
  obtain ⟨a7, l, rfl⟩ := List.exists_of_length_succ l (show l.length = 6 + 1 by omega)
  simp only [List.length_cons] at h
  obtain ⟨a8, l, rfl⟩ := List.exists_of_length_succ l (show l.length = 5 + 1 by omega)
  simp only [List.length_cons] at h
  obtain ⟨a9, l, rfl⟩ := List.exists_of_length_succ l (show l.length = 4 + 1 by omega)
  simp only [List.length_cons] at h
  obtain ⟨a10, l, rfl⟩ := List.exists_of_length_succ l (show l.length = 3 + 1 by omega)
  simp only [List.length_cons] at h
  obtain ⟨a11, l, rfl⟩ := List.exists_of_length_succ l (show l.length = 2 + 1 by omega)
  simp only [List.length_cons] at h
  obtain ⟨a12, l, rfl⟩ := List.exists_of_length_succ l (show l.length = 1 + 1 by omega)
  simp only [List.length_cons] at h
  obtain ⟨a13, l, rfl⟩ := List.exists_of_length_succ l (show l.length = 0 + 1 by omega)
  simp only [List.length_cons] at h
  obtain rfl : l = [] := List.length_eq_zero.mp (by omega)
  exact ⟨a0, a1, a2, a3, a4, a5, a6, a7, a8, a9, a10, a11, a12, a13, rfl⟩

theorem collect_explicit (a0 a1 a2 a3 a4 a5 a6 a7 a8 a9 a10 a11 a12 a13 : Int) :
    collect_remaining_stones [a0, a1, a2, a3, a4, a5, a6, a7, a8, a9, a10, a11, a12, a13] =
      [0, 0, 0, 0, 0, 0, a6 + (a0 + a1 + a2 + a3 + a4 + a5),
       0, 0, 0, 0, 0, 0, a13 + (a7 + a8 + a9 + a10 + a11 + a12)] := rfl

/-! ### Capture-step lemmas -/

theorem captureStep_sum (b1 : List Int) (index : Nat) (player : Int)
    (hlen : b1.length = 14) : (captureStep b1 index player).sum = b1.sum := by
  unfold captureStep
  by_cases h1 : player = 1 ∧ index < 6 ∧ getS b1 index = 1
  · rw [if_pos h1]
    by_cases h2 : getS b1 (12 - index) > 0
    · rw [if_pos h2]
      obtain ⟨-, hidx, hone⟩ := h1
      have l6 : (6 : Nat) < b1.length := by omega
      have lA : ((b1.set 6 (getS b1 6 + (getS b1 (12 - index) + 1))).set index 0).length = 14 := by
        simp [hlen]
      have lB : (b1.set 6 (getS b1 6 + (getS b1 (12 - index) + 1))).length = 14 := by
        simp [hlen]
      rw [sum_set_getS _ (by omega : 12 - index < (((b1.set 6 _).set index 0)).length)]
      rw [sum_set_getS _ (by omega : index < ((b1.set 6 _)).length)]
      rw [sum_set_getS _ l6]
      rw [getS_set_ne _ (by omega : index ≠ 12 - index)]
      rw [getS_set_ne _ (by omega : (6 : Nat) ≠ 12 - index)]
      rw [getS_set_ne _ (by omega : (6 : Nat) ≠ index)]
      rw [hone]
      ring
    · rw [if_neg h2]
  · rw [if_neg h1]
    by_cases h3 : player = 2 ∧ 7 ≤ index ∧ index ≤ 12 ∧ getS b1 index = 1
    · rw [if_pos h3]
      by_cases h4 : getS b1 (12 - index) > 0
      · rw [if_pos h4]
        obtain ⟨-, hlo, hhi, hone⟩ := h3
        have l13 : (13 : Nat) < b1.length := by omega
        rw [sum_set_getS _ (by simp [hlen]; omega : 12 - index < (((b1.set 13 _).set index 0)).length)]
        rw [sum_set_getS _ (by simp [hlen]; omega : index < ((b1.set 13 _)).length)]
        rw [sum_set_getS _ l13]
        rw [getS_set_ne _ (by omega : index ≠ 12 - index)]
        rw [getS_set_ne _ (by omega : (13 : Nat) ≠ 12 - index)]
        rw [getS_set_ne _ (by omega : (13 : Nat) ≠ index)]
        rw [hone]
        ring
      · rw [if_neg h4]
    · rw [if_neg h3]

theorem captureStep_nonneg (b1 : List Int) (index : Nat) (player : Int)
    (h : ∀ j, 0 ≤ getS b1 j) : ∀ j, 0 ≤ getS (captureStep b1 index player) j := by
  unfold captureStep
  by_cases h1 : player = 1 ∧ index < 6 ∧ getS b1 index = 1
  · rw [if_pos h1]
    by_cases h2 : getS b1 (12 - index) > 0
    · rw [if_pos h2]
      have hx : (0 : Int) ≤ getS b1 6 + (getS b1 (12 - index) + 1) := by
        have := h 6
        have := h (12 - index)
        omega
      exact getS_set_nonneg (getS_set_nonneg (getS_set_nonneg h hx) le_rfl) le_rfl
    · rw [if_neg h2]; exact h
  · rw [if_neg h1]
    by_cases h3 : player = 2 ∧ 7 ≤ index ∧ index ≤ 12 ∧ getS b1 index = 1
    · rw [if_pos h3]
      by_cases h4 : getS b1 (12 - index) > 0
      · rw [if_pos h4]
        have hx : (0 : Int) ≤ getS b1 13 + (getS b1 (12 - index) + 1) := by
          have := h 13
          have := h (12 - index)
          omega
        exact getS_set_nonneg (getS_set_nonneg (getS_set_nonneg h hx) le_rfl) le_rfl
      · rw [if_neg h4]; exact h
    · rw [if_neg h3]; exact h

theorem captureStep_getS_13_p1 (b1 : List Int) (index : Nat) :
    getS (captureStep b1 index 1) 13 = getS b1 13 := by
  unfold captureStep
  by_cases h1 : (1 : Int) = 1 ∧ index < 6 ∧ getS b1 index = 1
  · rw [if_pos h1]
    by_cases h2 : getS b1 (12 - index) > 0
    · rw [if_pos h2]
      obtain ⟨-, hidx, -⟩ := h1
      rw [getS_set_ne _ (by omega : 12 - index ≠ 13)]
      rw [getS_set_ne _ (by omega : index ≠ 13)]
      rw [getS_set_ne _ (by omega : (6 : Nat) ≠ 13)]
    · rw [if_neg h2]
  · rw [if_neg h1]
    rw [if_neg (fun hh => absurd hh.1 (by decide))]

theorem captureStep_getS_6_p2 (b1 : List Int) (index : Nat) :
    getS (captureStep b1 index 2) 6 = getS b1 6 := by
  unfold captureStep
  rw [if_neg (fun hh => absurd hh.1 (by decide))]
  by_cases h3 : (2 : Int) = 2 ∧ 7 ≤ index ∧ index ≤ 12 ∧ getS b1 index = 1
  · rw [if_pos h3]
    by_cases h4 : getS b1 (12 - index) > 0
    · rw [if_pos h4]
      obtain ⟨-, hlo, hhi, -⟩ := h3
      rw [getS_set_ne _ (by omega : 12 - index ≠ 6)]
      rw [getS_set_ne _ (by omega : index ≠ 6)]
      rw [getS_set_ne _ (by omega : (13 : Nat) ≠ 6)]
    · rw [if_neg h4]
  · rw [if_neg h3]

/-! ### Whole-operation preservation lemmas -/

theorem sownPair_length (board : List Int) (pit player : Int) (hlen : board.length = 14) :
    (sownPair board pit player).1.length = 14 := by
  unfold sownPair
  rw [sow_length]
  simp [hlen]

theorem make_move_sum (board : List Int) (pit player : Int)
    (hlen : board.length = 14) (hnn : ∀ i, i < 14 → 0 ≤ getS board i) :
    (make_move board pit player).2.1.sum = board.sum := by
  by_cases hp : player = 1
  · subst hp
    by_cases h : invalidFor1 board pit
    · rw [make_move_invalid1 _ _ h]
    · rw [make_move_valid1 _ _ h, moveBody_board]
      obtain ⟨hge, hle, -⟩ := not_invalid1 h
      have hnn' := hnn pit.toNat (by omega)
      rw [captureStep_sum _ _ _ (sownPair_length board pit 1 hlen)]
      unfold sownPair
      rw [sow_sum _ _ _ _ (by simp [hlen])]
      rw [sum_set_getS _ (by omega : pit.toNat < board.length)]
      rw [Int.toNat_of_nonneg hnn']
      ring
  · by_cases h : invalidFor2 board pit
    · rw [make_move_invalid2 _ _ _ hp h]
    · rw [make_move_valid2 _ _ _ hp h, moveBody_board]
      obtain ⟨hge, hle, -⟩ := not_invalid2 h
      have hnn' := hnn pit.toNat (by omega)
      rw [captureStep_sum _ _ _ (sownPair_length board pit player hlen)]
      unfold sownPair
      rw [sow_sum _ _ _ _ (by simp [hlen])]
      rw [sum_set_getS _ (by omega : pit.toNat < board.length)]
      rw [Int.toNat_of_nonneg hnn']
      ring

theorem make_move_nonneg (board : List Int) (pit player : Int)
    (hnn : ∀ j, 0 ≤ getS board j) :
    ∀ j, 0 ≤ getS (make_move board pit player).2.1 j := by
  have hbody : ∀ j, 0 ≤ getS (moveBody board pit player).2.1 j := by
    rw [moveBody_board]
    refine captureStep_nonneg _ _ _ ?_
    unfold sownPair
    exact sow_nonneg _ _ _ _ (getS_set_nonneg hnn le_rfl)
  by_cases hp : player = 1
  · subst hp
    by_cases h : invalidFor1 board pit
    · rw [make_move_invalid1 _ _ h]; exact hnn
    · rw [make_move_valid1 _ _ h]; exact hbody
  · by_cases h : invalidFor2 board pit
    · rw [make_move_invalid2 _ _ _ hp h]; exact hnn
    · rw [make_move_valid2 _ _ _ hp h]; exact hbody

theorem collect_sum (b : List Int) (hlen : b.length = 14) :
    (collect_remaining_stones b).sum = b.sum := by
  obtain ⟨a0, a1, a2, a3, a4, a5, a6, a7, a8, a9, a10, a11, a12, a13, rfl⟩ := destruct14 b hlen
  rw [collect_explicit]
  simp only [List.sum_cons, List.sum_nil]
  ring

/-! ### `collect_remaining_stones` characterization -/

theorem collect_getS (b : List Int) (hlen : b.length = 14) :
    getS (collect_remaining_stones b) 6 = getS b 6 + sumP1 b ∧
    getS (collect_remaining_stones b) 13 = getS b 13 + sumP2 b ∧
    ∀ i, i ≠ 6 → i ≠ 13 → getS (collect_remaining_stones b) i = 0 := by
  obtain ⟨a0, a1, a2, a3, a4, a5, a6, a7, a8, a9, a10, a11, a12, a13, rfl⟩ := destruct14 b hlen
  rw [collect_explicit]
  refine ⟨rfl, rfl, ?_⟩
  intro i h6 h13
  by_cases hi : i < 14
  · interval_cases i <;> first | rfl | (exact absurd rfl h6) | (exact absurd rfl h13)
  · exact getS_oob (by simp only [List.length_cons, List.length_nil]; omega)

theorem collect_idem (b : List Int) (hlen : b.length = 14) :
    collect_remaining_stones (collect_remaining_stones b) = collect_remaining_stones b := by
  obtain ⟨a0, a1, a2, a3, a4, a5, a6, a7, a8, a9, a10, a11, a12, a13, rfl⟩ := destruct14 b hlen
  rw [collect_explicit, collect_explicit]
  norm_num

theorem collect_nonneg (b : List Int) (hlen : b.length = 14)
    (hnn : ∀ i, i < 14 → 0 ≤ getS b i) :
    ∀ i, 0 ≤ getS (collect_remaining_stones b) i := by
  obtain ⟨h6, h13, hrest⟩ := collect_getS b hlen
  intro i
  by_cases hi6 : i = 6
  · subst hi6
    rw [h6]
    simp only [sumP1]
    have g0 := hnn 0 (by omega)
    have g1 := hnn 1 (by omega)
    have g2 := hnn 2 (by omega)
    have g3 := hnn 3 (by omega)
    have g4 := hnn 4 (by omega)
    have g5 := hnn 5 (by omega)
    have g6 := hnn 6 (by omega)
    omega
  · by_cases hi13 : i = 13
    · subst hi13
      rw [h13]
      simp only [sumP2]
      have g7 := hnn 7 (by omega)
      have g8 := hnn 8 (by omega)
      have g9 := hnn 9 (by omega)
      have g10 := hnn 10 (by omega)
      have g11 := hnn 11 (by omega)
      have g12 := hnn 12 (by omega)
      have g13 := hnn 13 (by omega)
      omega
    · rw [hrest i hi6 hi13]

/-! ### Claim theorems -/

/-- C1: for every 14-entry board with non-negative entries summing to 48,
`make_move` (with any pit and player, valid or invalid) returns a board
summing to 48, and for every 14-entry board summing to 48
`collect_remaining_stones` returns a board summing to 48. -/
theorem conservation_48 (board brd2 : List Int) (pit player : Int)
    (hlen : board.length = 14) (hnn : ∀ i, i < 14 → 0 ≤ getS board i)
    (hsum : board.sum = 48)
    (hlen2 : brd2.length = 14) (hsum2 : brd2.sum = 48) :
    (make_move board pit player).2.1.sum = 48 ∧
    (collect_remaining_stones brd2).sum = 48 :=
  ⟨by rw [make_move_sum board pit player hlen hnn, hsum],
   by rw [collect_sum brd2 hlen2, hsum2]⟩

/-- Witness for C1 at the initial board, pit 2, player 1. -/
theorem conservation_48_witness :
    init_board.length = 14 ∧ (∀ i, i < 14 → 0 ≤ getS init_board i) ∧
    init_board.sum = 48 ∧
    ((make_move init_board 2 1).2.1.sum = 48 ∧
      (collect_remaining_stones init_board).sum = 48) :=
  ⟨by decide, by decide, by decide,
    conservation_48 init_board init_board 2 1 (by decide) (by decide) (by decide)
      (by decide) (by decide)⟩

/-- C4: `make_move` returns `(false, board, false)` with the board unchanged
precisely when the move is invalid (player 1: pit outside 0..5 or empty;
player 2: pit outside 7..12 or empty), and returns validity flag `true`
otherwise.  Invalidity is reported by the flag, never by a fault: the model
function is total. -/
theorem validation_correct (board : List Int) (pit player : Int)
    (hp : player = 1 ∨ player = 2) :
    (make_move board pit player = (false, board, false) ↔
      (if player = 1 then invalidFor1 board pit else invalidFor2 board pit)) ∧
    (¬ (if player = 1 then invalidFor1 board pit else invalidFor2 board pit) →
      (make_move board pit player).1 = true) := by
  rcases hp with rfl | rfl
  · rw [if_pos rfl]
    by_cases h : invalidFor1 board pit
    · rw [make_move_invalid1 _ _ h]
      exact ⟨iff_of_true rfl h, fun hc => absurd h hc⟩
    · rw [make_move_valid1 _ _ h]
      refine ⟨iff_of_false ?_ h, fun _ => rfl⟩
      intro heq
      have hv := moveBody_fst board pit 1
      rw [heq] at hv
      exact Bool.noConfusion hv
  · rw [if_neg (by decide : ¬ (2 : Int) = 1)]
    by_cases h : invalidFor2 board pit
    · rw [make_move_invalid2 _ _ _ (by decide) h]
      exact ⟨iff_of_true rfl h, fun hc => absurd h hc⟩
    · rw [make_move_valid2 _ _ _ (by decide) h]
      refine ⟨iff_of_false ?_ h, fun _ => rfl⟩
      intro heq
      have hv := moveBody_fst board pit 2
      rw [heq] at hv
      exact Bool.noConfusion hv

/-- Witness for C4 at the initial board, pit 0, player 1. -/
theorem validation_correct_witness :
    ((1 : Int) = 1 ∨ (1 : Int) = 2) ∧
    ((make_move init_board 0 1 = (false, init_board, false) ↔
        (if (1 : Int) = 1 then invalidFor1 init_board 0 else invalidFor2 init_board 0)) ∧
      (¬ (if (1 : Int) = 1 then invalidFor1 init_board 0 else invalidFor2 init_board 0) →
        (make_move init_board 0 1).1 = true)) :=
  ⟨Or.inl rfl, validation_correct init_board 0 1 (Or.inl rfl)⟩

/-- C6: a move by Player 1 (valid or invalid) never changes Player 2's store
(index 13), and a move by Player 2 never changes Player 1's store (index 6). -/
theorem opponent_store_untouched (board : List Int) (pit : Int) :
    getS (make_move board pit 1).2.1 13 = getS board 13 ∧
    getS (make_move board pit 2).2.1 6 = getS board 6 := by
  constructor
  · by_cases h : invalidFor1 board pit
    · rw [make_move_invalid1 _ _ h]
    · rw [make_move_valid1 _ _ h, moveBody_board, captureStep_getS_13_p1]
      unfold sownPair
      rw [sow_getS_13]
      obtain ⟨hge, hle, -⟩ := not_invalid1 h
      exact getS_set_ne _ (by omega : pit.toNat ≠ 13)
  · by_cases h : invalidFor2 board pit
    · rw [make_move_invalid2 _ _ _ (by decide) h]
    · rw [make_move_valid2 _ _ _ (by decide) h, moveBody_board, captureStep_getS_6_p2]
      unfold sownPair
      rw [sow_getS_6]
      obtain ⟨hge, hle, -⟩ := not_invalid2 h
      exact getS_set_ne _ (by omega : pit.toNat ≠ 6)

/-- C8: starting from a 14-entry board with non-negative entries, every
entry of the board returned by `make_move` (any pit and player) and by
`collect_remaining_stones` is non-negative. -/
theorem values_nonneg (board : List Int) (pit player : Int)
    (hlen : board.length = 14) (hnn : ∀ i, i < 14 → 0 ≤ getS board i) :
    (∀ i, 0 ≤ getS (make_move board pit player).2.1 i) ∧
    (∀ i, 0 ≤ getS (collect_remaining_stones board) i) := by
  have hnn' : ∀ i, 0 ≤ getS board i := by
    intro i
    by_cases hi : i < 14
    · exact hnn i hi
    · rw [getS_oob (by omega)]
  exact ⟨make_move_nonneg board pit player hnn', collect_nonneg board hlen hnn⟩

/-- Witness for C8 at the initial board, pit 2, player 1. -/
theorem values_nonneg_witness :
    init_board.length = 14 ∧ (∀ i, i < 14 → 0 ≤ getS init_board i) ∧
    ((∀ i, 0 ≤ getS (make_move init_board 2 1).2.1 i) ∧
      (∀ i, 0 ≤ getS (collect_remaining_stones init_board) i)) :=
  ⟨by decide, by decide, values_nonneg init_board 2 1 (by decide) (by decide)⟩

/-- C7: `collect_remaining_stones` adds the old pit sums to the respective
stores, zeroes all 12 pits, and is therefore idempotent. -/
theorem collect_correct (b : List Int) (hlen : b.length = 14) :
    getS (collect_remaining_stones b) 6 = getS b 6 + sumP1 b ∧
    getS (collect_remaining_stones b) 13 = getS b 13 + sumP2 b ∧
    (∀ i, i ≠ 6 → i ≠ 13 → getS (collect_remaining_stones b) i = 0) ∧
    collect_remaining_stones (collect_remaining_stones b) = collect_remaining_stones b :=
  ⟨(collect_getS b hlen).1, (collect_getS b hlen).2.1, (collect_getS b hlen).2.2,
    collect_idem b hlen⟩

/-- Witness for C7 at a game-over board. -/
theorem collect_correct_witness :
    ([0, 0, 0, 0, 0, 0, 10, 1, 2, 3, 4, 5, 6, 7] : List Int).length = 14 ∧
    (getS (collect_remaining_stones [0, 0, 0, 0, 0, 0, 10, 1, 2, 3, 4, 5, 6, 7]) 6 =
        getS ([0, 0, 0, 0, 0, 0, 10, 1, 2, 3, 4, 5, 6, 7] : List Int) 6 +
          sumP1 [0, 0, 0, 0, 0, 0, 10, 1, 2, 3, 4, 5, 6, 7] ∧
      getS (collect_remaining_stones [0, 0, 0, 0, 0, 0, 10, 1, 2, 3, 4, 5, 6, 7]) 13 =
        getS ([0, 0, 0, 0, 0, 0, 10, 1, 2, 3, 4, 5, 6, 7] : List Int) 13 +
          sumP2 [0, 0, 0, 0, 0, 0, 10, 1, 2, 3, 4, 5, 6, 7] ∧
      (∀ i, i ≠ 6 → i ≠ 13 →
        getS (collect_remaining_stones [0, 0, 0, 0, 0, 0, 10, 1, 2, 3, 4, 5, 6, 7]) i = 0) ∧
      collect_remaining_stones
          (collect_remaining_stones [0, 0, 0, 0, 0, 0, 10, 1, 2, 3, 4, 5, 6, 7]) =
        collect_remaining_stones [0, 0, 0, 0, 0, 0, 10, 1, 2, 3, 4, 5, 6, 7]) :=
  ⟨by decide, collect_correct [0, 0, 0, 0, 0, 0, 10, 1, 2, 3, 4, 5, 6, 7] (by decide)⟩

/-! ### Capture-rule characterization -/

theorem captureStep_spec_p1 (b1 : List Int) (index : Nat) (hlen : b1.length = 14) :
    (index < 6 ∧ getS b1 index = 1 ∧ 0 < getS b1 (12 - index) →
      getS (captureStep b1 index 1) 6 = getS b1 6 + (getS b1 (12 - index) + 1) ∧
      getS (captureStep b1 index 1) index = 0 ∧
      getS (captureStep b1 index 1) (12 - index) = 0) ∧
    (¬ (index < 6 ∧ getS b1 index = 1 ∧ 0 < getS b1 (12 - index)) →
      captureStep b1 index 1 = b1) := by
  constructor
  · rintro ⟨hidx, hone, hopp⟩
    unfold captureStep
    rw [if_pos ⟨rfl, hidx, hone⟩, if_pos hopp]
    have lB : (b1.set 6 (getS b1 6 + (getS b1 (12 - index) + 1))).length = 14 := by
      simp [hlen]
    have lA : ((b1.set 6 (getS b1 6 + (getS b1 (12 - index) + 1))).set index 0).length = 14 := by
      simp [hlen]
    refine ⟨?_, ?_, ?_⟩
    · rw [getS_set_ne _ (by omega : 12 - index ≠ 6), getS_set_ne _ (by omega : index ≠ 6),
        getS_set_self _ (by omega : 6 < b1.length)]
    · rw [getS_set_ne _ (by omega : 12 - index ≠ index), getS_set_self _ (by omega)]
    · rw [getS_set_self _ (by omega)]
  · intro hneg
    unfold captureStep
    by_cases hc : index < 6 ∧ getS b1 index = 1
    · have hopp : ¬ getS b1 (12 - index) > 0 := fun hopp => hneg ⟨hc.1, hc.2, hopp⟩
      rw [if_pos ⟨rfl, hc.1, hc.2⟩, if_neg hopp]
    · rw [if_neg (fun hh => hc ⟨hh.2.1, hh.2.2⟩),
        if_neg (fun hh => absurd hh.1 (by decide))]

theorem captureStep_spec_p2 (b1 : List Int) (index : Nat) (hlen : b1.length = 14) :
    (7 ≤ index ∧ index ≤ 12 ∧ getS b1 index = 1 ∧ 0 < getS b1 (12 - index) →
      getS (captureStep b1 index 2) 13 = getS b1 13 + (getS b1 (12 - index) + 1) ∧
      getS (captureStep b1 index 2) index = 0 ∧
      getS (captureStep b1 index 2) (12 - index) = 0) ∧
    (¬ (7 ≤ index ∧ index ≤ 12 ∧ getS b1 index = 1 ∧ 0 < getS b1 (12 - index)) →
      captureStep b1 index 2 = b1) := by
  constructor
  · rintro ⟨hlo, hhi, hone, hopp⟩
    unfold captureStep
    rw [if_neg (fun hh => absurd hh.1 (by decide)), if_pos ⟨rfl, hlo, hhi, hone⟩, if_pos hopp]
    have lB : (b1.set 13 (getS b1 13 + (getS b1 (12 - index) + 1))).length = 14 := by
      simp [hlen]
    have lA : ((b1.set 13 (getS b1 13 + (getS b1 (12 - index) + 1))).set index 0).length = 14 := by
      simp [hlen]
    refine ⟨?_, ?_, ?_⟩
    · rw [getS_set_ne _ (by omega : 12 - index ≠ 13), getS_set_ne _ (by omega : index ≠ 13),
        getS_set_self _ (by omega : 13 < b1.length)]
    · rw [getS_set_ne _ (by omega : 12 - index ≠ index), getS_set_self _ (by omega)]
    · rw [getS_set_self _ (by omega)]
  · intro hneg
    unfold captureStep
    rw [if_neg (fun hh => absurd hh.1 (by decide))]
    by_cases hc : 7 ≤ index ∧ index ≤ 12 ∧ getS b1 index = 1
    · have hopp : ¬ getS b1 (12 - index) > 0 := fun hopp =>
        hneg ⟨hc.1, hc.2.1, hc.2.2, hopp⟩
      rw [if_pos ⟨rfl, hc.1, hc.2.1, hc.2.2⟩, if_neg hopp]
    · rw [if_neg (fun hh => hc ⟨hh.2.1, hh.2.2.1, hh.2.2.2⟩)]

/-- C2: for a valid move by player 1 or 2, with `index` the landing position
of the last sown stone: if `index` is one of the player's own pits, holds
exactly 1 stone after the deposit, and the opposite pit `12 - index` is
non-empty, then the player's store gains `board[12 - index] + 1` and both
`index` and `12 - index` become 0; if any condition fails, no capture occurs
and the board keeps its post-sowing values. -/
theorem capture_rule_correct (board : List Int) (pit player : Int)
    (hlen : board.length = 14) (hp : player = 1 ∨ player = 2)
    (hv : (make_move board pit player).1 = true) :
    ((if player = 1 then (sownPair board pit player).2 < 6
        else 7 ≤ (sownPair board pit player).2 ∧ (sownPair board pit player).2 ≤ 12) ∧
      getS (sownPair board pit player).1 (sownPair board pit player).2 = 1 ∧
      0 < getS (sownPair board pit player).1 (12 - (sownPair board pit player).2) →
      getS (make_move board pit player).2.1 (if player = 1 then 6 else 13) =
          getS (sownPair board pit player).1 (if player = 1 then 6 else 13) +
            (getS (sownPair board pit player).1 (12 - (sownPair board pit player).2) + 1) ∧
        getS (make_move board pit player).2.1 (sownPair board pit player).2 = 0 ∧
        getS (make_move board pit player).2.1 (12 - (sownPair board pit player).2) = 0) ∧
    (¬ ((if player = 1 then (sownPair board pit player).2 < 6
          else 7 ≤ (sownPair board pit player).2 ∧ (sownPair board pit player).2 ≤ 12) ∧
        getS (sownPair board pit player).1 (sownPair board pit player).2 = 1 ∧
        0 < getS (sownPair board pit player).1 (12 - (sownPair board pit player).2)) →
      (make_move board pit player).2.1 = (sownPair board pit player).1) := by
  rcases hp with rfl | rfl
  · have h : ¬ invalidFor1 board pit := by
      rcases valid_of_flag hv with ⟨-, h⟩ | ⟨hne, -⟩
      · exact h
      · exact absurd rfl hne
    rw [make_move_valid1 _ _ h, moveBody_board, if_pos rfl, if_pos rfl]
    have hs := captureStep_spec_p1 (sownPair board pit 1).1 (sownPair board pit 1).2
      (sownPair_length board pit 1 hlen)
    exact ⟨fun hcap => (hs.1 ⟨hcap.1, hcap.2.1, hcap.2.2⟩), fun hneg => hs.2 hneg⟩
  · have h : ¬ invalidFor2 board pit := by
      rcases valid_of_flag hv with ⟨hne, -⟩ | ⟨-, h⟩
      · exact absurd hne (by decide)
      · exact h
    rw [make_move_valid2 _ _ _ (by decide) h, moveBody_board,
      if_neg (by decide : ¬ (2 : Int) = 1), if_neg (by decide : ¬ (2 : Int) = 1)]
    have hs := captureStep_spec_p2 (sownPair board pit 2).1 (sownPair board pit 2).2
      (sownPair_length board pit 2 hlen)
    exact ⟨fun hcap => (hs.1 ⟨hcap.1.1, hcap.1.2, hcap.2.1, hcap.2.2⟩),
      fun hneg => hs.2 fun hcon => hneg ⟨⟨hcon.1, hcon.2.1⟩, hcon.2.2.1, hcon.2.2.2⟩⟩

/-- Witness for C2 at the initial board, pit 2, player 1. -/
theorem capture_rule_correct_witness :
    init_board.length = 14 ∧ ((1 : Int) = 1 ∨ (1 : Int) = 2) ∧
    (make_move init_board 2 1).1 = true ∧
    (¬ ((if (1 : Int) = 1 then (sownPair init_board 2 1).2 < 6
          else 7 ≤ (sownPair init_board 2 1).2 ∧ (sownPair init_board 2 1).2 ≤ 12) ∧
        getS (sownPair init_board 2 1).1 (sownPair init_board 2 1).2 = 1 ∧
        0 < getS (sownPair init_board 2 1).1 (12 - (sownPair init_board 2 1).2)) →
      (make_move init_board 2 1).2.1 = (sownPair init_board 2 1).1) :=
  ⟨by decide, Or.inl rfl, by decide,
    (capture_rule_correct init_board 2 1 (by decide) (Or.inl rfl) (by decide)).2⟩

/-- C5: for a valid move by player 1 or 2, the extra-turn flag is true
exactly when the last stone landed in the acting player's own store (6 for
player 1, 13 for player 2); in particular, from the initial board, player 1
playing pit 2 gets an extra turn and leaves store 6 holding 1 stone. -/
theorem extra_turn_correct (board : List Int) (pit player : Int)
    (hp : player = 1 ∨ player = 2) (hv : (make_move board pit player).1 = true) :
    ((make_move board pit player).2.2 = true ↔
      (sownPair board pit player).2 = (if player = 1 then 6 else 13)) ∧
    ((make_move init_board 2 1).2.2 = true ∧ getS (make_move init_board 2 1).2.1 6 = 1) := by
  refine ⟨?_, by decide, by decide⟩
  rcases hp with rfl | rfl
  · have h : ¬ invalidFor1 board pit := by
      rcases valid_of_flag hv with ⟨-, h⟩ | ⟨hne, -⟩
      · exact h
      · exact absurd rfl hne
    rw [make_move_valid1 _ _ h, moveBody_extra, if_pos rfl]
    simp
  · have h : ¬ invalidFor2 board pit := by
      rcases valid_of_flag hv with ⟨hne, -⟩ | ⟨-, h⟩
      · exact absurd hne (by decide)
      · exact h
    rw [make_move_valid2 _ _ _ (by decide) h, moveBody_extra,
      if_neg (by decide : ¬ (2 : Int) = 1)]
    simp

/-- Witness for C5 at the initial board, pit 2, player 1. -/
theorem extra_turn_correct_witness :
    ((1 : Int) = 1 ∨ (1 : Int) = 2) ∧ (make_move init_board 2 1).1 = true ∧
    (((make_move init_board 2 1).2.2 = true ↔
        (sownPair init_board 2 1).2 = (if (1 : Int) = 1 then 6 else 13)) ∧
      ((make_move init_board 2 1).2.2 = true ∧ getS (make_move init_board 2 1).2.1 6 = 1)) :=
  ⟨Or.inl rfl, by decide, extra_turn_correct init_board 2 1 (Or.inl rfl) (by decide)⟩

/-- C3 counterexample: on the board with pit 1 = 0, pit 0 = 4, pit 11 = 5
(other pits as in the initial board), player 1 playing pit 0 lands its last
stone on pit 4, not pit 1; pit 1 keeps the single sown stone, pit 11 keeps
its 5 stones, and store 6 stays 0 instead of increasing by 6. -/
theorem capture_example_fails :
    (sownPair [4, 0, 4, 4, 4, 4, 0, 4, 4, 4, 4, 5, 4, 0] 0 1).2 = 4 ∧
    getS (make_move [4, 0, 4, 4, 4, 4, 0, 4, 4, 4, 4, 5, 4, 0] 0 1).2.1 1 = 1 ∧
    getS (make_move [4, 0, 4, 4, 4, 4, 0, 4, 4, 4, 4, 5, 4, 0] 0 1).2.1 11 = 5 ∧
    getS (make_move [4, 0, 4, 4, 4, 4, 0, 4, 4, 4, 4, 5, 4, 0] 0 1).2.1 6 = 0 := by
  decide

/-- C3 amended: with pit 0 holding 1 stone (instead of 4), pit 1 empty and
pit 11 holding 5, player 1 playing pit 0 lands its last stone on pit 1, after
which pits 1 and 11 are 0 and store 6 has increased by 6. -/
theorem capture_example (board : List Int) (hlen : board.length = 14)
    (h1 : getS board 1 = 0) (h0 : getS board 0 = 1) (h11 : getS board 11 = 5) :
    (sownPair board 0 1).2 = 1 ∧
    getS (make_move board 0 1).2.1 1 = 0 ∧
    getS (make_move board 0 1).2.1 11 = 0 ∧
    getS (make_move board 0 1).2.1 6 = getS board 6 + 6 := by
  obtain ⟨a0, a1, a2, a3, a4, a5, a6, a7, a8, a9, a10, a11, a12, a13, rfl⟩ :=
    destruct14 board hlen
  obtain rfl : a1 = 0 := h1
  obtain rfl : a0 = 1 := h0
  obtain rfl : a11 = 5 := h11
  refine ⟨rfl, rfl, rfl, ?_⟩
  show a6 + (5 + 1) = a6 + 6
  norm_num

/-- Witness for the amended C3 at a concrete board. -/
theorem capture_example_witness :
    ([1, 0, 4, 4, 4, 4, 0, 4, 4, 4, 4, 5, 4, 0] : List Int).length = 14 ∧
    getS [1, 0, 4, 4, 4, 4, 0, 4, 4, 4, 4, 5, 4, 0] 1 = 0 ∧
    getS [1, 0, 4, 4, 4, 4, 0, 4, 4, 4, 4, 5, 4, 0] 0 = 1 ∧
    getS [1, 0, 4, 4, 4, 4, 0, 4, 4, 4, 4, 5, 4, 0] 11 = 5 ∧
    ((sownPair [1, 0, 4, 4, 4, 4, 0, 4, 4, 4, 4, 5, 4, 0] 0 1).2 = 1 ∧
      getS (make_move [1, 0, 4, 4, 4, 4, 0, 4, 4, 4, 4, 5, 4, 0] 0 1).2.1 1 = 0 ∧
      getS (make_move [1, 0, 4, 4, 4, 4, 0, 4, 4, 4, 4, 5, 4, 0] 0 1).2.1 11 = 0 ∧
      getS (make_move [1, 0, 4, 4, 4, 4, 0, 4, 4, 4, 4, 5, 4, 0] 0 1).2.1 6 =
        getS [1, 0, 4, 4, 4, 4, 0, 4, 4, 4, 4, 5, 4, 0] 6 + 6) :=
  ⟨by decide, by decide, by decide, by decide,
    capture_example [1, 0, 4, 4, 4, 4, 0, 4, 4, 4, 4, 5, 4, 0] (by decide) (by decide)
      (by decide) (by decide)⟩

/-- C10 counterexample: with 8 stones in pit 12, a move by "player 3" does
not behave as a player-2 move: it deposits a stone into index 6 (which a
player-2 move skips), so the two results differ. -/
theorem player_other_value_differs :
    make_move [4, 4, 4, 4, 4, 4, 0, 4, 4, 4, 4, 4, 8, 0] 12 3 ≠
      make_move [4, 4, 4, 4, 4, 4, 0, 4, 4, 4, 4, 4, 8, 0] 12 2 ∧
    getS (make_move [4, 4, 4, 4, 4, 4, 0, 4, 4, 4, 4, 4, 8, 0] 12 3).2.1 6 = 1 ∧
    getS (make_move [4, 4, 4, 4, 4, 4, 0, 4, 4, 4, 4, 4, 8, 0] 12 2).2.1 6 = 0 := by
  decide

/-- C10 amended: any player value other than 1 is validated as player 2
(pit in 7..12 with a non-zero count); but only the literal player 2 gets the
index-6 skip, the extra turn, and captures: for player values other than 1
and 2, sowing skips no store, the extra-turn flag is always false, and no
capture ever occurs (the returned board is exactly the sown board). -/
theorem player_other_than_one (board : List Int) (pit player : Int)
    (hp1 : player ≠ 1) :
    ((make_move board pit player).1 = true ↔ ¬ invalidFor2 board pit) ∧
    (player ≠ 2 →
      (∀ index, nextIndex player index = (index + 1) % 14) ∧
      (make_move board pit player).2.2 = false ∧
      (¬ invalidFor2 board pit →
        (make_move board pit player).2.1 = (sownPair board pit player).1)) := by
  constructor
  · by_cases h : invalidFor2 board pit
    · rw [make_move_invalid2 _ _ _ hp1 h]
      exact iff_of_false (fun hfalse => Bool.noConfusion hfalse) (fun hc => hc h)
    · rw [make_move_valid2 _ _ _ hp1 h]
      exact iff_of_true rfl h
  · intro hp2
    refine ⟨?_, ?_, ?_⟩
    · intro index
      simp only [nextIndex]
      rw [if_neg]
      rintro (⟨h, -⟩ | ⟨h, -⟩)
      · exact hp1 h
      · exact hp2 h
    · by_cases h : invalidFor2 board pit
      · rw [make_move_invalid2 _ _ _ hp1 h]
      · rw [make_move_valid2 _ _ _ hp1 h, moveBody_extra]
        refine decide_eq_false ?_
        rintro (⟨h1, -⟩ | ⟨h2, -⟩)
        · exact hp1 h1
        · exact hp2 h2
    · intro h
      rw [make_move_valid2 _ _ _ hp1 h, moveBody_board]
      unfold captureStep
      rw [if_neg (fun hh => hp1 hh.1), if_neg (fun hh => hp2 hh.1)]

/-- Witness for the amended C10 with player 3 at pit 12. -/
theorem player_other_than_one_witness :
    (3 : Int) ≠ 1 ∧
    (((make_move [4, 4, 4, 4, 4, 4, 0, 4, 4, 4, 4, 4, 8, 0] 12 3).1 = true ↔
        ¬ invalidFor2 [4, 4, 4, 4, 4, 4, 0, 4, 4, 4, 4, 4, 8, 0] 12) ∧
      ((3 : Int) ≠ 2 →
        (∀ index, nextIndex 3 index = (index + 1) % 14) ∧
        (make_move [4, 4, 4, 4, 4, 4, 0, 4, 4, 4, 4, 4, 8, 0] 12 3).2.2 = false ∧
        (¬ invalidFor2 [4, 4, 4, 4, 4, 4, 0, 4, 4, 4, 4, 4, 8, 0] 12 →
          (make_move [4, 4, 4, 4, 4, 4, 0, 4, 4, 4, 4, 4, 8, 0] 12 3).2.1 =
            (sownPair [4, 4, 4, 4, 4, 4, 0, 4, 4, 4, 4, 4, 8, 0] 12 3).1))) :=
  ⟨by decide, player_other_than_one [4, 4, 4, 4, 4, 4, 0, 4, 4, 4, 4, 4, 8, 0] 12 3 (by decide)⟩

/-! ### Termination of the sowing loop -/

theorem sowFuel_eq_sow (player : Int) (s : Nat) :
    ∀ f : Nat, 2 * s ≤ f → ∀ (index : Nat) (b : List Int),
      sowFuel player f (s : Int) index b = some (sow player s index b) := by
  induction s with
  | zero =>
    intro f _ index b
    cases f with
    | zero => simp [sowFuel, sow]
    | succ g => simp [sowFuel, sow]
  | succ n ih =>
    intro f hf index b
    obtain ⟨g, rfl⟩ : ∃ g, f = g + 1 := ⟨f - 1, by omega⟩
    simp only [sowFuel, sow]
    rw [if_neg (by omega : ¬ ((n + 1 : Nat) : Int) ≤ 0)]
    by_cases hskip : (player = 1 ∧ (index + 1) % 14 = 13) ∨ (player = 2 ∧ (index + 1) % 14 = 6)
    · rw [if_pos hskip]
      obtain ⟨g2, rfl⟩ : ∃ g2, g = g2 + 1 := ⟨g - 1, by omega⟩
      simp only [sowFuel]
      rw [if_neg (by omega : ¬ ((n + 1 : Nat) : Int) ≤ 0)]
      have hne : ¬ ((player = 1 ∧ ((index + 1) % 14 + 1) % 14 = 13) ∨
          (player = 2 ∧ ((index + 1) % 14 + 1) % 14 = 6)) := by
        rcases hskip with ⟨hp, hi⟩ | ⟨hp, hi⟩ <;> rintro (⟨hq, hj⟩ | ⟨hq, hj⟩) <;> omega
      rw [if_neg hne]
      have hc : ((n + 1 : Nat) : Int) - 1 = (n : Nat) := by push_cast; ring
      rw [hc, ih g2 (by omega)]
      have hni : nextIndex player index = ((index + 1) % 14 + 1) % 14 := by
        simp only [nextIndex]
        rw [if_pos hskip]
      rw [hni]
    · rw [if_neg hskip]
      have hc : ((n + 1 : Nat) : Int) - 1 = (n : Nat) := by push_cast; ring
      rw [hc, ih g (by omega)]
      have hni : nextIndex player index = (index + 1) % 14 := by
        simp only [nextIndex]
        rw [if_neg hskip]
      rw [hni]

/-- C9: for every 14-entry non-negative board and every pit/player pair that
passes validation, the `while stones > 0` loop terminates: run with one unit
of fuel per loop iteration, `2 * stones` units suffice (each deposit consumes
a stone and at most one skip separates consecutive deposits), and the result
agrees with the structural sowing function used by `make_move`. -/
theorem sowing_terminates (board : List Int) (pit player : Int)
    (hlen : board.length = 14) (hnn : ∀ i, i < 14 → 0 ≤ getS board i)
    (hv : (make_move board pit player).1 = true) :
    sowFuel player (2 * (getS board pit.toNat).toNat) (getS board pit.toNat) pit.toNat
      (board.set pit.toNat 0) = some (sownPair board pit player) := by
  have hpit : pit.toNat < 14 := by
    rcases valid_of_flag hv with ⟨-, h⟩ | ⟨-, h⟩
    · obtain ⟨h1, h2, -⟩ := not_invalid1 h
      omega
    · obtain ⟨h1, h2, -⟩ := not_invalid2 h
      omega
  have hnonneg : 0 ≤ getS board pit.toNat := hnn _ hpit
  obtain ⟨s, hs⟩ : ∃ s : Nat, getS board pit.toNat = (s : Int) :=
    ⟨(getS board pit.toNat).toNat, (Int.toNat_of_nonneg hnonneg).symm⟩
  unfold sownPair
  rw [hs, Int.toNat_natCast]
  exact sowFuel_eq_sow player s (2 * s) le_rfl pit.toNat (board.set pit.toNat 0)

/-- Witness for C9 at the initial board, pit 2, player 1. -/
theorem sowing_terminates_witness :
    init_board.length = 14 ∧ (∀ i, i < 14 → 0 ≤ getS init_board i) ∧
    (make_move init_board 2 1).1 = true ∧
    sowFuel 1 (2 * (getS init_board (2 : Int).toNat).toNat) (getS init_board (2 : Int).toNat)
        (2 : Int).toNat (init_board.set (2 : Int).toNat 0) =
      some (sownPair init_board 2 1) :=
  ⟨by decide, by decide, by decide,
    sowing_terminates init_board 2 1 (by decide) (by decide) (by decide)⟩

end Mancala
